import Mathlib

/-!
# Verification of the RAG pipeline core logic

Shallow embedding of the repository's three Lambda modules:

* `src/AWS/lambdas/2_chunk_embed/lambda_function.py` — `chunk_text`,
  `embed_text` response parsing, and the indexing `lambda_handler`;
* `src/cloud_rag/lambdas/3_query_rag/lambda_function.py` — `_build_filter`
  and the query `lambda_handler`'s hit-to-chunk conversion and
  generation-skip branch;
* `src/AWS/lambdas/4_gemini_llm/lambda_function.py` — `build_prompt`.

Python strings are embedded as `List Char` where character-level operations
(splitting, joining, stripping) matter, and as Lean `String` where they are
opaque tokens.  Python floats are modelled as rationals (`ℚ`): the claims
under study are structural (field copying, `1 - distance`), not about
rounding.  Optional / possibly-missing dictionary entries are `Option`s,
where `none` covers both an absent key and a JSON `null` value.
-/

/-- The whitespace predicate used by Python's `str.split()` and `str.strip()`
(restricted to the ASCII whitespace characters). -/
def isPySpace (c : Char) : Bool :=
  c == ' ' || c == '\t' || c == '\n' || c == '\r' || c == '\x0b' || c == '\x0c'

/-- Accumulator-based embedding of Python's `text.split()`: splits on runs of
whitespace and never produces empty words.  `acc` is the word currently being
read (in order). -/
def pySplitAux : List Char → List Char → List (List Char)
  | [], acc => if acc = [] then [] else [acc]
  | c :: cs, acc =>
    if isPySpace c then
      if acc = [] then pySplitAux cs [] else acc :: pySplitAux cs []
    else
      pySplitAux cs (acc ++ [c])

/-- Python `text.split()` (no separator argument). -/
def pySplit (s : List Char) : List (List Char) := pySplitAux s []

/-- Python `sep.join(ws)`. -/
def pyJoin (sep : List Char) : List (List Char) → List Char
  | [] => []
  | [w] => w
  | w :: v :: ws => w ++ sep ++ pyJoin sep (v :: ws)

/-- The loop of `chunk_text` in `2_chunk_embed/lambda_function.py`
(lines 29–45), made explicit as a tail recursion over the remaining words.
`current_words`, `current_len` and `chunks` are the Python local variables. -/
def chunkLoop (max_chars : Nat) :
    List (List Char) → List (List Char) → Nat → List (List Char) → List (List Char)
  | [], current_words, _, chunks =>
    if current_words = [] then chunks else chunks ++ [pyJoin [' '] current_words]
  | word :: words, current_words, current_len, chunks =>
    let extra_len := if current_len = 0 then word.length else word.length + 1
    if current_len + extra_len > max_chars ∧ current_words ≠ [] then
      chunkLoop max_chars words [word] word.length (chunks ++ [pyJoin [' '] current_words])
    else
      if current_len = 0 then
        chunkLoop max_chars words (current_words ++ [word]) word.length chunks
      else
        chunkLoop max_chars words (current_words ++ [word]) (current_len + word.length + 1) chunks

/-- `chunk_text(text, max_chars)` from `2_chunk_embed/lambda_function.py`:
split text into chunks of at most `max_chars` characters without breaking
words. -/
def chunk_text (text : List Char) (max_chars : Nat := 200) : List (List Char) :=
  chunkLoop max_chars (pySplit text) [] 0 []

/-- A word as produced by `text.split()`: non-empty and without whitespace. -/
def wordlike (w : List Char) : Prop := w ≠ [] ∧ ∀ c ∈ w, isPySpace c = false

/-- The invariant the chunker maintains for every emitted group of words:
joined with single spaces it fits the budget, or it is a single overlong
word. -/
def goodGroup (max_chars : Nat) (g : List (List Char)) : Prop :=
  (pyJoin [' '] g).length ≤ max_chars ∨ ∃ u, g = [u] ∧ max_chars < u.length

/-! ## Basic lemmas about `pySplit` and `pyJoin` -/

lemma pyJoin_cons (sep : List Char) (w : List Char) (ws : List (List Char)) (h : ws ≠ []) :
    pyJoin sep (w :: ws) = w ++ sep ++ pyJoin sep ws := by
  cases ws with
  | nil => exact absurd rfl h
  | cons v vs => rfl

lemma pyJoin_append (sep : List Char) (g h : List (List Char)) (hg : g ≠ []) (hh : h ≠ []) :
    pyJoin sep (g ++ h) = pyJoin sep g ++ sep ++ pyJoin sep h := by
  induction g with
  | nil => exact absurd rfl hg
  | cons w g ih =>
    cases g with
    | nil =>
      cases h with
      | nil => exact absurd rfl hh
      | cons v vs => simp [pyJoin]
    | cons v g' =>
      have hne : (v :: g') ++ h ≠ [] := by simp
      calc pyJoin sep ((w :: v :: g') ++ h)
          = w ++ sep ++ pyJoin sep ((v :: g') ++ h) := by
            rw [List.cons_append, pyJoin_cons sep w _ hne]
        _ = w ++ sep ++ (pyJoin sep (v :: g') ++ sep ++ pyJoin sep h) := by
            rw [ih (by simp) ]
        _ = pyJoin sep (w :: v :: g') ++ sep ++ pyJoin sep h := by
            rw [pyJoin_cons sep w (v :: g') (by simp)]
            simp [List.append_assoc]

lemma pyJoin_append_single (sep : List Char) (ws : List (List Char)) (w : List Char)
    (h : ws ≠ []) : pyJoin sep (ws ++ [w]) = pyJoin sep ws ++ sep ++ w := by
  have := pyJoin_append sep ws [w] h (by simp)
  simpa [pyJoin] using this

lemma pyJoin_length_pos (ws : List (List Char)) (hne : ws ≠ [])
    (h : ∀ w ∈ ws, w ≠ []) : 0 < (pyJoin [' '] ws).length := by
  cases ws with
  | nil => exact absurd rfl hne
  | cons w vs =>
    cases vs with
    | nil =>
      have hw := h w (by simp)
      simpa [pyJoin, List.length_pos] using hw
    | cons v vs' =>
      have hw := h w (by simp)
      have : 0 < w.length := List.length_pos.mpr hw
      simp only [pyJoin, List.length_append]
      omega

lemma length_le_pyJoin (sep : List Char) (ws : List (List Char)) (u : List Char)
    (h : u ∈ ws) : u.length ≤ (pyJoin sep ws).length := by
  induction ws with
  | nil => simp at h
  | cons w vs ih =>
    cases vs with
    | nil =>
      simp at h
      simp [pyJoin, h]
    | cons v vs' =>
      rcases List.mem_cons.mp h with h1 | h2
      · subst h1
        simp [pyJoin, List.length_append]
      · have := ih h2
        simp only [pyJoin, List.length_append]
        omega

lemma pyJoin_map_flatten (sep : List Char) (gs : List (List (List Char)))
    (h : ∀ g ∈ gs, g ≠ []) :
    pyJoin sep (gs.map (pyJoin sep)) = pyJoin sep gs.flatten := by
  induction gs with
  | nil => rfl
  | cons g gs ih =>
    cases gs with
    | nil => simp [pyJoin]
    | cons g' gs' =>
      have hg : g ≠ [] := h g (by simp)
      have hflat : g' ++ gs'.flatten ≠ [] := by
        have hg' := h g' (by simp)
        cases g' with
        | nil => exact absurd rfl hg'
        | cons x xs => simp
      have hmapne : (List.map (pyJoin sep) (g' :: gs')) ≠ [] := by simp
      have hih := ih (fun x hx => h x (by simp [hx]))
      rw [List.map_cons, pyJoin_cons sep _ _ hmapne, hih]
      simp only [List.flatten_cons]
      rw [pyJoin_append sep g (g' ++ gs'.flatten) hg hflat]

lemma pySplitAux_word (w t acc : List Char) (hw : ∀ c ∈ w, isPySpace c = false) :
    pySplitAux (w ++ t) acc = pySplitAux t (acc ++ w) := by
  induction w generalizing acc with
  | nil => simp
  | cons c cs ih =>
    have hc : isPySpace c = false := hw c (by simp)
    have hcs : ∀ d ∈ cs, isPySpace d = false := fun d hd => hw d (by simp [hd])
    have h2 := ih (acc ++ [c]) hcs
    simp only [List.cons_append, pySplitAux, hc, Bool.false_eq_true, if_false,
      List.append_eq]
    rw [h2]
    simp

lemma pySplitAux_space_only (s acc : List Char) (h : ∀ c ∈ s, isPySpace c = true) :
    pySplitAux s acc = if acc = [] then [] else [acc] := by
  induction s generalizing acc with
  | nil => rfl
  | cons c cs ih =>
    have hc : isPySpace c = true := h c (by simp)
    have hcs : ∀ d ∈ cs, isPySpace d = true := fun d hd => h d (by simp [hd])
    by_cases hacc : acc = []
    · simp [pySplitAux, hc, hacc, ih [] hcs]
    · simp [pySplitAux, hc, hacc, ih [] hcs]

lemma pySplitAux_wordlike (s acc : List Char) (hacc : ∀ c ∈ acc, isPySpace c = false) :
    ∀ w ∈ pySplitAux s acc, wordlike w := by
  induction s generalizing acc with
  | nil =>
    intro w hw
    by_cases h : acc = []
    · simp [pySplitAux, h] at hw
    · simp only [pySplitAux, h, if_false] at hw
      simp only [List.mem_singleton] at hw
      subst hw
      exact ⟨h, hacc⟩
  | cons c cs ih =>
    intro w hw
    by_cases hc : isPySpace c
    · by_cases h : acc = []
      · simp only [pySplitAux, hc, h, if_true, if_pos rfl] at hw
        exact ih [] (by simp) w hw
      · simp only [pySplitAux, hc, if_true, h, if_false, List.mem_cons] at hw
        rcases hw with h1 | h2
        · subst h1; exact ⟨h, hacc⟩
        · exact ih [] (by simp) w h2
    · simp only [pySplitAux, hc, if_false] at hw
      refine ih (acc ++ [c]) ?_ w hw
      intro d hd
      rcases List.mem_append.mp hd with h1 | h2
      · exact hacc d h1
      · simp only [List.mem_singleton] at h2
        subst h2
        simpa using hc

lemma pySplit_wordlike (s : List Char) : ∀ w ∈ pySplit s, wordlike w :=
  pySplitAux_wordlike s [] (by simp)

lemma pySplit_space_only (s : List Char) (h : ∀ c ∈ s, isPySpace c = true) :
    pySplit s = [] := by
  simp [pySplit, pySplitAux_space_only s [] h]

/-- Splitting undoes joining with single spaces, for genuine words. -/
lemma pySplit_pyJoin (ws : List (List Char)) (h : ∀ w ∈ ws, wordlike w) :
    pySplit (pyJoin [' '] ws) = ws := by
  induction ws with
  | nil => rfl
  | cons w vs ih =>
    have hw := h w (by simp)
    cases vs with
    | nil =>
      show pySplitAux (pyJoin [' '] [w]) [] = [w]
      have : pyJoin [' '] [w] = w ++ [] := by simp [pyJoin]
      rw [this, pySplitAux_word w [] [] hw.2]
      simp [pySplitAux, hw.1]
    | cons v vs' =>
      have hjoin : pyJoin [' '] (w :: v :: vs') = w ++ (' ' :: pyJoin [' '] (v :: vs')) := by
        rw [pyJoin_cons [' '] w (v :: vs') (by simp)]
        simp
      show pySplitAux (pyJoin [' '] (w :: v :: vs')) [] = w :: v :: vs'
      rw [hjoin, pySplitAux_word w _ [] hw.2]
      simp only [List.nil_append]
      have hsp : isPySpace ' ' = true := by decide
      simp only [pySplitAux, hsp, if_true, hw.1, if_false]
      have := ih (fun x hx => h x (by simp [hx]))
      simpa [pySplit] using this

/-! ## The chunker's loop invariant -/

lemma goodGroup_singleton (max_chars : Nat) (w : List Char) : goodGroup max_chars [w] := by
  by_cases h : w.length ≤ max_chars
  · left; simpa [pyJoin] using h
  · right; exact ⟨w, rfl, by omega⟩

/-- Master invariant of `chunkLoop`: starting from a well-formed state, the
emitted chunks are exactly the joins of a partition `gs` of the pending words
`cw ++ ws`, and every part is non-empty and `goodGroup`. -/
lemma chunkLoop_master (max_chars : Nat) (ws : List (List Char)) :
    ∀ (cw : List (List Char)) (cl : Nat) (acc : List (List Char)),
    (∀ w ∈ ws, wordlike w) → (∀ w ∈ cw, wordlike w) →
    cl = (pyJoin [' '] cw).length →
    (cw = [] ∨ goodGroup max_chars cw) →
    ∃ gs : List (List (List Char)),
      chunkLoop max_chars ws cw cl acc = acc ++ gs.map (pyJoin [' ']) ∧
      gs.flatten = cw ++ ws ∧
      ∀ g ∈ gs, g ≠ [] ∧ goodGroup max_chars g := by
  induction ws with
  | nil =>
    intro cw cl acc _ _ _ hgood
    by_cases h : cw = []
    · subst h
      exact ⟨[], by simp [chunkLoop], by simp, by simp⟩
    · refine ⟨[cw], by simp [chunkLoop, h], by simp, ?_⟩
      intro g hg
      simp only [List.mem_singleton] at hg
      subst hg
      exact ⟨h, hgood.resolve_left h⟩
  | cons word rest ih =>
    intro cw cl acc hws hcw hcl hgood
    have hword : wordlike word := hws word (by simp)
    have hrest : ∀ w ∈ rest, wordlike w := fun w hw => hws w (by simp [hw])
    simp only [chunkLoop]
    by_cases hflush :
        cl + (if cl = 0 then word.length else word.length + 1) > max_chars ∧ cw ≠ []
    · rw [if_pos hflush]
      obtain ⟨gs', h1, h2, h3⟩ :=
        ih [word] word.length (acc ++ [pyJoin [' '] cw]) hrest
          (by intro w hw; simp only [List.mem_singleton] at hw; subst hw; exact hword)
          (by simp [pyJoin]) (Or.inr (goodGroup_singleton max_chars word))
      refine ⟨cw :: gs', ?_, ?_, ?_⟩
      · rw [h1]; simp [List.append_assoc]
      · simp [h2]
      · intro g hg
        rcases List.mem_cons.mp hg with h | h
        · subst h
          exact ⟨hflush.2, hgood.resolve_left hflush.2⟩
        · exact h3 g h
    · rw [if_neg hflush]
      by_cases hcl0 : cl = 0
      · rw [if_pos hcl0]
        have hcwnil : cw = [] := by
          by_contra hne
          have := pyJoin_length_pos cw hne (fun w hw => (hcw w hw).1)
          omega
        subst hcwnil
        obtain ⟨gs', h1, h2, h3⟩ :=
          ih ([] ++ [word]) word.length acc hrest
            (by intro w hw; simp only [List.nil_append, List.mem_singleton] at hw
                subst hw; exact hword)
            (by simp [pyJoin]) (Or.inr (by simpa using goodGroup_singleton max_chars word))
        exact ⟨gs', h1, by simpa using h2, h3⟩
      · rw [if_neg hcl0]
        have hcwne : cw ≠ [] := by
          intro h
          subst h
          simp [pyJoin] at hcl
          omega
        have hfits : cl + word.length + 1 ≤ max_chars := by
          rcases not_and_or.mp hflush with h | h
          · simp only [hcl0, if_false, gt_iff_lt, not_lt] at h
            omega
          · exact absurd hcwne h
        have hjoin : pyJoin [' '] (cw ++ [word]) = pyJoin [' '] cw ++ [' '] ++ word :=
          pyJoin_append_single [' '] cw word hcwne
        obtain ⟨gs', h1, h2, h3⟩ :=
          ih (cw ++ [word]) (cl + word.length + 1) acc hrest
            (by intro w hw
                rcases List.mem_append.mp hw with h | h
                · exact hcw w h
                · simp only [List.mem_singleton] at h; subst h; exact hword)
            (by rw [hjoin]; simp [List.length_append]; omega)
            (Or.inr (Or.inl (by rw [hjoin]; simp [List.length_append]; omega)))
        refine ⟨gs', h1, ?_, h3⟩
        rw [h2]
        simp

/-! ## Claims about the chunker -/

/-- Instantiation of the master invariant at the chunker's entry point. -/
lemma chunk_text_partition (text : List Char) (max_chars : Nat) :
    ∃ gs : List (List (List Char)),
      chunk_text text max_chars = gs.map (pyJoin [' ']) ∧
      gs.flatten = pySplit text ∧
      ∀ g ∈ gs, g ≠ [] ∧ goodGroup max_chars g := by
  obtain ⟨gs, h1, h2, h3⟩ :=
    chunkLoop_master max_chars (pySplit text) [] 0 []
      (pySplit_wordlike text) (by simp) (by simp [pyJoin]) (Or.inl rfl)
  exact ⟨gs, by simpa [chunk_text] using h1, by simpa using h2, h3⟩

/-- **C1.** Every chunk emitted by `chunk_text` has length at most
`max_chars`, except when it is a single word of the input whose own length
exceeds `max_chars`; such an overlong word is never split and appears
verbatim as its own chunk. -/
theorem chunk_text_length_bound (text : List Char) (max_chars : Nat) :
    (∀ c ∈ chunk_text text max_chars,
        c.length ≤ max_chars ∨ (max_chars < c.length ∧ c ∈ pySplit text)) ∧
    (∀ w ∈ pySplit text, max_chars < w.length → w ∈ chunk_text text max_chars) := by
  obtain ⟨gs, hchunks, hflat, hgood⟩ := chunk_text_partition text max_chars
  constructor
  · intro c hc
    rw [hchunks] at hc
    obtain ⟨g, hg, rfl⟩ := List.mem_map.mp hc
    rcases (hgood g hg).2 with hle | ⟨u, rfl, hu⟩
    · exact Or.inl hle
    · right
      have hju : pyJoin [' '] [u] = u := rfl
      rw [hju]
      refine ⟨hu, ?_⟩
      rw [← hflat]
      exact List.mem_flatten.mpr ⟨[u], hg, by simp⟩
  · intro w hw hlong
    rw [← hflat] at hw
    obtain ⟨g, hg, hwg⟩ := List.mem_flatten.mp hw
    rcases (hgood g hg).2 with hle | ⟨u, rfl, _⟩
    · have := length_le_pyJoin [' '] g w hwg
      omega
    · simp only [List.mem_singleton] at hwg
      subst hwg
      rw [hchunks]
      exact List.mem_map.mpr ⟨[w], hg, rfl⟩

/-- Closed instance of `chunk_text_length_bound` at a concrete input. -/
theorem chunk_text_length_bound_witness :
    ("aaaa".toList.length ≤ 3 ∨
      (3 < "aaaa".toList.length ∧ "aaaa".toList ∈ pySplit "aaaa bb".toList)) ∧
    "aaaa".toList ∈ chunk_text "aaaa bb".toList 3 :=
  ⟨(chunk_text_length_bound "aaaa bb".toList 3).1 "aaaa".toList (by decide),
   (chunk_text_length_bound "aaaa bb".toList 3).2 "aaaa".toList (by decide) (by decide)⟩

/-- **C2.** For non-empty text and `max_chars ≥ 1`, joining the chunks with
single spaces and re-splitting on whitespace reproduces exactly the word
sequence of the original text. -/
theorem chunk_text_roundtrip (text : List Char) (max_chars : Nat)
    (htext : text ≠ []) (hmax : 1 ≤ max_chars) :
    pySplit (pyJoin [' '] (chunk_text text max_chars)) = pySplit text := by
  obtain ⟨gs, hchunks, hflat, hgood⟩ := chunk_text_partition text max_chars
  rw [hchunks, pyJoin_map_flatten [' '] gs (fun g hg => (hgood g hg).1), hflat,
    pySplit_pyJoin _ (pySplit_wordlike text)]

/-- Closed instance of `chunk_text_roundtrip` at a concrete input. -/
theorem chunk_text_roundtrip_witness :
    pySplit (pyJoin [' '] (chunk_text "aaaa bb".toList 3)) = pySplit "aaaa bb".toList :=
  chunk_text_roundtrip "aaaa bb".toList 3 (by decide) (by decide)

/-- Sanity scenario from the spec: "The quick brown fox jumps over the lazy
dog" with a budget of 10 characters. -/
example :
    chunk_text "The quick brown fox jumps over the lazy dog".toList 10 =
      ["The quick".toList, "brown fox".toList, "jumps over".toList,
       "the lazy".toList, "dog".toList] := by decide

/-! ## Python truthiness helpers -/

/-- Python truthiness of an optional string (`not x` is true for `None` and
for the empty string). -/
def pyTruthyStr : Option String → Bool
  | none => false
  | some s => s != ""

/-- Python truthiness of an optional list (`not x` is true for `None` and
for the empty list). -/
def pyTruthyList {α : Type} : Option (List α) → Bool
  | some (_ :: _) => true
  | _ => false

/-! ## `_build_filter` from `3_query_rag/lambda_function.py` -/

/-- The metadata-filter shapes `_build_filter` can produce:
`{"user_id": {"$eq": u}}`, `{"paper_id": {"$in": ps}}`, and the
`{"$and": [l, r]}` conjunction of the two. -/
inductive MetaFilter where
  | userEq (user_id : String)
  | paperIn (paper_ids : List String)
  | andF (left right : MetaFilter)
deriving DecidableEq

/-- `_build_filter(user_id, paper_ids)` from `3_query_rag/lambda_function.py`
(lines 92–114).  The branch conditions are Python truthiness tests, so `None`,
`""` and `[]` all count as "no value". -/
def _build_filter (user_id : Option String) (paper_ids : Option (List String)) :
    Option MetaFilter :=
  if pyTruthyStr user_id = false ∧ pyTruthyList paper_ids = false then
    none
  else if pyTruthyStr user_id = true ∧ pyTruthyList paper_ids = false then
    some (.userEq (user_id.getD ""))
  else if pyTruthyStr user_id = true ∧ pyTruthyList paper_ids = true then
    some (.andF (.userEq (user_id.getD "")) (.paperIn (paper_ids.getD [])))
  else
    some (.paperIn (paper_ids.getD []))

/-- **C3, counterexample.** The claim says the null filter is returned only
when both inputs are absent, but a present-but-empty owner string also yields
the null filter. -/
theorem build_filter_absent_cex :
    _build_filter (some "") none = none ∧ (some "" : Option String) ≠ none :=
  ⟨rfl, by simp⟩

/-- **C3 (amended).** The four-way case table holds with "present" read as
Python-truthy (non-empty): both inputs falsy gives the null filter; truthy
owner alone gives owner equality; both truthy gives the conjunction; truthy
documents alone gives membership; and the null filter is returned exactly
when both inputs are falsy (absent or empty). -/
theorem build_filter_case_table :
    _build_filter none none = none ∧
    (∀ u : String, u ≠ "" → _build_filter (some u) none = some (.userEq u)) ∧
    (∀ (u : String) (ds : List String), u ≠ "" → ds ≠ [] →
      _build_filter (some u) (some ds) =
        some (.andF (.userEq u) (.paperIn ds))) ∧
    (∀ ds : List String, ds ≠ [] →
      _build_filter none (some ds) = some (.paperIn ds)) ∧
    (∀ (o : Option String) (p : Option (List String)),
      _build_filter o p = none ↔ (pyTruthyStr o = false ∧ pyTruthyList p = false)) := by
  refine ⟨rfl, ?_, ?_, ?_, ?_⟩
  · intro u hu
    have ht : pyTruthyStr (some u) = true := by
      simp [pyTruthyStr, hu]
    simp [_build_filter, ht, pyTruthyList]
  · intro u ds hu hds
    have ht : pyTruthyStr (some u) = true := by
      simp [pyTruthyStr, hu]
    have hd : pyTruthyList (some ds) = true := by
      cases ds with
      | nil => exact absurd rfl hds
      | cons d ds' => rfl
    simp [_build_filter, ht, hd]
  · intro ds hds
    have hd : pyTruthyList (some ds) = true := by
      cases ds with
      | nil => exact absurd rfl hds
      | cons d ds' => rfl
    simp [_build_filter, hd, pyTruthyStr]
  · intro o p
    by_cases ho : pyTruthyStr o = true <;> by_cases hp : pyTruthyList p = true <;>
      simp [_build_filter, ho, hp]

/-- Closed instance of `build_filter_case_table` at the spec's concrete
inputs. -/
theorem build_filter_case_table_witness :
    _build_filter (some "u1") (some ["d1", "d2"]) =
      some (.andF (.userEq "u1") (.paperIn ["d1", "d2"])) :=
  build_filter_case_table.2.2.1 "u1" ["d1", "d2"] (by decide) (by simp)

/-- **C4, counterexample.** A present-but-empty document set yields the null
filter, not a membership predicate over the empty set. -/
theorem build_filter_empty_docs_cex :
    _build_filter none (some []) = none ∧
    _build_filter none (some []) ≠ some (MetaFilter.paperIn []) :=
  ⟨rfl, by decide⟩

/-- **C4 (amended).** A present-but-empty document set is treated exactly as
an absent one: for every owner input the result is unchanged, and with no
owner the result is the null filter. -/
theorem build_filter_empty_docs_absent (o : Option String) :
    _build_filter o (some []) = _build_filter o none ∧
    _build_filter none (some []) = none := by
  refine ⟨?_, rfl⟩
  rcases o with _ | u
  · rfl
  · by_cases hu : u = ""
    · subst hu; rfl
    · have ht : pyTruthyStr (some u) = true := by simp [pyTruthyStr, hu]
      simp [_build_filter, ht, pyTruthyList]

/-! ## `embed_text` response parsing (both Lambdas, identical code) -/

/-- The fields of a Titan embeddings response that `embed_text` inspects.
Each is `none` when the key is absent (or holds JSON `null`), `some v` when
it holds a vector `v`; floats are modelled as rationals. -/
structure EmbedPayload where
  embedding : Option (List ℚ)
  embeddings : Option (List ℚ)
  vector : Option (List ℚ)
deriving DecidableEq

/-- Python's short-circuiting `a or b`: returns `a` when it is truthy,
otherwise `b` (even when `b` is falsy). -/
def pyOr {α : Type} (a b : Option (List α)) : Option (List α) :=
  if pyTruthyList a then a else b

/-- The result-extraction logic of `embed_text` in
`2_chunk_embed/lambda_function.py` (lines 68–77) and
`3_query_rag/lambda_function.py` (lines 80–89):
`payload.get("embedding") or payload.get("embeddings") or
payload.get("vector")`, then raise `RuntimeError` iff the result `is None`. -/
def embed_text_extract (payload : EmbedPayload) : Except String (List ℚ) :=
  match pyOr (pyOr payload.embedding payload.embeddings) payload.vector with
  | none => .error "Unexpected embedding response format"
  | some v => .ok v

/-- **C10, counterexample.** With all three fields falsy but `vector` present
as an empty list, `embed_text` does *not* raise: the `or`-chain returns the
final operand even when falsy, and `[] is None` is false, so the empty vector
is returned. -/
theorem embed_extract_empty_vector_cex :
    pyTruthyList (some ([] : List ℚ)) = false ∧
    pyTruthyList (none : Option (List ℚ)) = false ∧
    embed_text_extract ⟨none, none, some []⟩ = .ok [] :=
  ⟨rfl, rfl, rfl⟩

/-- **C10 (amended).** `embed_text` raises exactly when `embedding` and
`embeddings` are absent or falsy and `vector` is absent (or null); in
particular a response whose only content is an `embedding` field holding an
empty vector is rejected rather than returned. -/
theorem embed_extract_error_iff :
    (∀ p : EmbedPayload,
      embed_text_extract p = .error "Unexpected embedding response format" ↔
        (pyTruthyList p.embedding = false ∧ pyTruthyList p.embeddings = false ∧
         p.vector = none)) ∧
    embed_text_extract ⟨some [], none, none⟩ =
      .error "Unexpected embedding response format" := by
  refine ⟨?_, rfl⟩
  rintro ⟨e, es, v⟩
  by_cases he : pyTruthyList e = true <;> by_cases hes : pyTruthyList es = true
  · rcases e with _ | ⟨_ | ⟨x, xs⟩⟩ <;> simp [pyTruthyList] at he <;>
      simp [embed_text_extract, pyOr, pyTruthyList, he, hes]
  all_goals {
    rcases e with _ | ⟨_ | ⟨x, xs⟩⟩ <;> rcases es with _ | ⟨_ | ⟨y, ys⟩⟩ <;>
      rcases v with _ | ⟨_ | ⟨z, zs⟩⟩ <;>
      simp_all [embed_text_extract, pyOr, pyTruthyList]
  }

/-! ## Hit conversion and the query handler
(`3_query_rag/lambda_function.py`, `lambda_handler`) -/

/-- The metadata stored with a vector record, as read back by the query
handler.  Every field is optional: malformed records may lack any of them. -/
structure HitMetadata where
  source_text : Option String
  user_id : Option String
  paper_id : Option String
  chunk_index : Option Int
deriving DecidableEq

/-- The empty metadata dictionary `{}` used as the default in
`v.get("metadata", {}) or {}`. -/
def emptyMetadata : HitMetadata := ⟨none, none, none, none⟩

/-- One hit returned by `s3v.query_vectors`: `metadata` is `none` when absent
or null (the handler then substitutes `{}`), `distance` is `none` when the
key is absent (the handler then defaults it to `0.0`). -/
structure Hit where
  metadata : Option HitMetadata
  distance : Option ℚ
deriving DecidableEq

/-- A ranked chunk as assembled by the loop at lines 156–170 of
`3_query_rag/lambda_function.py`. -/
structure RankedChunk where
  rank : Nat
  similarity : ℚ
  text : String
  user_id : Option String
  paper_id : Option String
  chunk_index : Option Int
deriving DecidableEq

/-- The body of the conversion loop for one hit at 1-based position `rank`. -/
def hit_to_chunk (rank : Nat) (v : Hit) : RankedChunk :=
  let md := v.metadata.getD emptyMetadata
  let dist := v.distance.getD 0
  { rank := rank
    similarity := 1 - dist
    text := md.source_text.getD ""
    user_id := md.user_id
    paper_id := md.paper_id
    chunk_index := md.chunk_index }

/-- `for rank, v in enumerate(hits, start=1)` accumulating `top_k_chunks`. -/
def rank_hits_from (rank : Nat) : List Hit → List RankedChunk
  | [] => []
  | v :: rest => hit_to_chunk rank v :: rank_hits_from (rank + 1) rest

/-- The full `top_k_chunks` conversion of the store's hits, in the store's
returned order. -/
def rank_hits (hits : List Hit) : List RankedChunk := rank_hits_from 1 hits

lemma rank_hits_from_getElem? (n : Nat) (hits : List Hit) (i : Nat) :
    (rank_hits_from n hits)[i]? = (hits[i]?).map (hit_to_chunk (n + i)) := by
  induction hits generalizing n i with
  | nil => simp [rank_hits_from]
  | cons v rest ih =>
    cases i with
    | zero => simp [rank_hits_from]
    | succ j =>
      simp only [rank_hits_from, List.getElem?_cons_succ]
      rw [ih (n + 1) j, (by omega : n + 1 + j = n + (j + 1))]

/-- **C5.** The orchestrator maps the `i`-th hit (in the store's returned
order, no re-sorting) to a ranked chunk with rank `i + 1` (1-based),
similarity exactly `1 - distance`, text equal to the metadata's
`source_text` defaulted to `""`, and `user_id`, `paper_id`, `chunk_index`
copied through as-is. -/
theorem rank_hits_maps_hits (hits : List Hit) (i : Nat) (v : Hit)
    (hv : hits[i]? = some v) (d : ℚ) (hd : v.distance = some d) :
    (rank_hits hits)[i]? = some
      { rank := i + 1
        similarity := 1 - d
        text := (v.metadata.getD emptyMetadata).source_text.getD ""
        user_id := (v.metadata.getD emptyMetadata).user_id
        paper_id := (v.metadata.getD emptyMetadata).paper_id
        chunk_index := (v.metadata.getD emptyMetadata).chunk_index } := by
  rw [rank_hits, rank_hits_from_getElem? 1 hits i, hv]
  simp [hit_to_chunk, hd, Nat.add_comm 1 i]

/-- Closed instance of `rank_hits_maps_hits`: the spec's end-to-end query
scenario (one hit at distance 0.2 with full metadata). -/
theorem rank_hits_maps_hits_witness :
    (rank_hits [{ metadata := some ⟨some "foo", some "u1", some "d1", some 0⟩,
                  distance := some (1/5) }])[0]? = some
      { rank := 1
        similarity := 1 - 1/5
        text := "foo"
        user_id := some "u1"
        paper_id := some "d1"
        chunk_index := some 0 } := by
  have h := rank_hits_maps_hits
    [{ metadata := some ⟨some "foo", some "u1", some "d1", some 0⟩,
       distance := some (1/5) }]
    0
    { metadata := some ⟨some "foo", some "u1", some "d1", some 0⟩,
      distance := some (1/5) }
    rfl (1/5) rfl
  simpa using h

/-- **C9.** A hit without a `distance` field does not make the orchestrator
fail: the distance defaults to `0.0` and the chunk's similarity is exactly
`1`. -/
theorem rank_hits_default_distance (hits : List Hit) (i : Nat) (v : Hit)
    (hv : hits[i]? = some v) (hd : v.distance = none) :
    ∃ c : RankedChunk, (rank_hits hits)[i]? = some c ∧ c.similarity = 1 := by
  refine ⟨hit_to_chunk (1 + i) v, ?_, ?_⟩
  · rw [rank_hits, rank_hits_from_getElem? 1 hits i, hv]
    rfl
  · simp [hit_to_chunk, hd]

/-- Closed instance of `rank_hits_default_distance`. -/
theorem rank_hits_default_distance_witness :
    ∃ c : RankedChunk,
      (rank_hits [{ metadata := none, distance := none }])[0]? = some c ∧
      c.similarity = 1 :=
  rank_hits_default_distance _ 0 _ rfl rfl

/-- The query handler's response dictionary. -/
structure QueryResponse where
  question : String
  top_k_chunks : List RankedChunk
  answer : Option String
deriving DecidableEq

/-- The tail of `lambda_handler` in `3_query_rag/lambda_function.py`
(lines 156–204), from the point where the store's hits are known.  The
external collaborators appear as parameters: `hits` is what
`s3v.query_vectors` returned, `gemini_answer` is `gem_result.get("answer")`
from the Gemini Lambda's response when it is invoked. -/
def query_handler_respond (gemini_lambda_arn : Option String) (question : String)
    (invoke_gemini : Bool) (hits : List Hit) (gemini_answer : Option String) :
    QueryResponse :=
  let top_k_chunks := rank_hits hits
  if pyTruthyStr gemini_lambda_arn = false ∨ invoke_gemini = false then
    { question := question, top_k_chunks := top_k_chunks, answer := none }
  else
    { question := question, top_k_chunks := top_k_chunks, answer := gemini_answer }

/-- **C6.** Whenever generation is skipped — the Gemini Lambda ARN is unset
or the caller disabled invocation — the response's `answer` is exactly
`None` (never an empty string), while the question and ranked chunks are
still returned. -/
theorem query_answer_null_when_skipped (arn : Option String) (question : String)
    (invoke_gemini : Bool) (hits : List Hit) (gemini_answer : Option String)
    (h : arn = none ∨ invoke_gemini = false) :
    query_handler_respond arn question invoke_gemini hits gemini_answer =
      { question := question, top_k_chunks := rank_hits hits, answer := none } := by
  have hcond : pyTruthyStr arn = false ∨ invoke_gemini = false := by
    rcases h with h | h
    · subst h; exact Or.inl rfl
    · exact Or.inr h
  simp [query_handler_respond, hcond]

/-- Closed instance of `query_answer_null_when_skipped`: even with a Gemini
answer available, a disabled invocation yields a `null` answer. -/
theorem query_answer_null_when_skipped_witness :
    query_handler_respond (some "arn:gemini") "q" false [] (some "ignored") =
      { question := "q", top_k_chunks := rank_hits [], answer := none } :=
  query_answer_null_when_skipped (some "arn:gemini") "q" false [] (some "ignored")
    (Or.inr rfl)

/-! ## `build_prompt` from `4_gemini_llm/lambda_function.py` -/

/-- A chunk as received by the Gemini Lambda: `rank` via `c.get("rank")`
(absent renders as `None`), `text` via `c.get("text", "")`. -/
structure GeminiChunk where
  rank : Option Int
  text : Option (List Char)

/-- Python `str(...)` of the value of `c.get("rank")` as interpolated by the
f-string `f"[CHUNK {rank}]"`. -/
def pyStrOfOptInt : Option Int → List Char
  | none => "None".toList
  | some n => (toString n).toList

/-- One `context_blocks` entry: `f"[CHUNK {rank}]\n{text}"`. -/
def chunkBlock (c : GeminiChunk) : List Char :=
  "[CHUNK ".toList ++ pyStrOfOptInt c.rank ++ "]".toList ++ '\n' :: c.text.getD []

/-- `context_text` of `build_prompt`:
`"\n\n".join(context_blocks) if context_blocks else "(no context provided)"`. -/
def build_context (chunks : List GeminiChunk) : List Char :=
  let context_blocks := chunks.map chunkBlock
  if context_blocks = [] then "(no context provided)".toList
  else pyJoin "\n\n".toList context_blocks

/-- Python `str.strip()` (no argument): drop whitespace at both ends. -/
def pyStrip (s : List Char) : List Char :=
  ((s.dropWhile isPySpace).reverse.dropWhile isPySpace).reverse

/-- The literal text of the prompt template before `{question}` (after the
leading newline that `strip()` removes). -/
def promptHead : List Char :=
  "You are a helpful research assistant. Use ONLY the provided context excerpts\nfrom research papers to answer the question. If the answer is not clearly\nsupported by the context, say \"I don\x27t know based on the provided papers.\"\n\nQuestion:\n".toList

/-- The literal prompt text between `{question}` and `{context_text}`. -/
def promptMid : List Char := "\n\nContext:\n".toList

/-- The literal prompt text after `{context_text}` (before the trailing
newline that `strip()` removes). -/
def promptTail : List Char :=
  "\n\nAnswer in a clear, concise paragraph, and avoid guessing if the context is insufficient.".toList

/-- `build_prompt(question, chunks)`: the f-string template (its raw form
starts and ends with a newline) followed by `.strip()`. -/
def build_prompt (question : List Char) (chunks : List GeminiChunk) : List Char :=
  let context_text := build_context chunks
  pyStrip (('\n' :: (promptHead ++ question ++ promptMid ++ context_text ++ promptTail)) ++ ['\n'])

lemma pyStrip_sandwich (x : Char) (m : List Char) (y : Char)
    (hx : isPySpace x = false) (hy : isPySpace y = false) :
    pyStrip (('\n' :: ((x :: m) ++ [y])) ++ ['\n']) = (x :: m) ++ [y] := by
  have hnl : isPySpace '\n' = true := rfl
  have h1 : List.dropWhile isPySpace (('\n' :: ((x :: m) ++ [y])) ++ ['\n'])
      = x :: ((m ++ [y]) ++ ['\n']) := by
    simp only [List.cons_append, List.append_assoc, List.dropWhile_cons, hnl, if_true,
      hx, Bool.false_eq_true, if_false]
  have h2 : (x :: ((m ++ [y]) ++ ['\n'])).reverse
      = '\n' :: (y :: (m.reverse ++ [x])) := by
    simp [List.reverse_cons, List.reverse_append, List.append_assoc]
  have h3 : List.dropWhile isPySpace ('\n' :: (y :: (m.reverse ++ [x])))
      = y :: (m.reverse ++ [x]) := by
    simp only [List.dropWhile_cons, hnl, if_true, hy, Bool.false_eq_true, if_false]
  rw [pyStrip, h1, h2, h3]
  simp [List.reverse_cons, List.reverse_append]

set_option maxRecDepth 4000 in
lemma promptHead_cons :
    promptHead = 'Y' :: "ou are a helpful research assistant. Use ONLY the provided context excerpts\nfrom research papers to answer the question. If the answer is not clearly\nsupported by the context, say \"I don\x27t know based on the provided papers.\"\n\nQuestion:\n".toList := by
  decide

set_option maxRecDepth 4000 in
lemma promptTail_snoc :
    promptTail = "\n\nAnswer in a clear, concise paragraph, and avoid guessing if the context is insufficient".toList ++ ['.'] := by
  decide

/-- **C7.** The prompt is always the fixed preamble, the question, and a
context block: for an empty chunk sequence the context block is the fixed
sentinel `"(no context provided)"`, never the empty string; for a non-empty
sequence it is the chunks' texts each prefixed with a rank label, in order,
separated by blank lines (`"\n\n"`). -/
theorem build_prompt_context_block (question : List Char) (chunks : List GeminiChunk) :
    build_prompt question chunks =
      promptHead ++ question ++ promptMid ++ build_context chunks ++ promptTail ∧
    (chunks = [] → build_context chunks = "(no context provided)".toList) ∧
    (chunks ≠ [] →
      build_context chunks = pyJoin "\n\n".toList (chunks.map chunkBlock)) := by
  refine ⟨?_, ?_, ?_⟩
  · have h := pyStrip_sandwich 'Y'
      ("ou are a helpful research assistant. Use ONLY the provided context excerpts\nfrom research papers to answer the question. If the answer is not clearly\nsupported by the context, say \"I don\x27t know based on the provided papers.\"\n\nQuestion:\n".toList
        ++ question ++ promptMid ++ build_context chunks
        ++ "\n\nAnswer in a clear, concise paragraph, and avoid guessing if the context is insufficient".toList)
      '.' rfl rfl
    simp only [build_prompt, promptHead_cons, promptTail_snoc, List.append_assoc,
      List.cons_append] at h ⊢
    exact h
  · intro h
    subst h
    rfl
  · intro h
    have hne : chunks.map chunkBlock ≠ [] := by simpa using h
    simp [build_context, hne]

/-- Closed instance of `build_prompt_context_block` for the empty chunk
sequence. -/
theorem build_prompt_context_block_witness :
    build_prompt "q".toList [] =
      promptHead ++ "q".toList ++ promptMid ++ build_context [] ++ promptTail ∧
    build_context ([] : List GeminiChunk) = "(no context provided)".toList :=
  ⟨(build_prompt_context_block "q".toList []).1,
   (build_prompt_context_block "q".toList []).2.1 rfl⟩

/-! ## The indexing handler (`2_chunk_embed/lambda_function.py`,
`lambda_handler`, from the point where the document text is in hand) -/

/-- The response dictionary of the indexing handler.  `embedding_dim` is
`none` on the no-op path, where the key is not present in the response. -/
structure IndexResponse where
  statusCode : Nat
  message : String
  user_id : String
  paper_id : String
  text_length : Nat
  num_chunks : Nat
  embedding_dim : Option Nat
  vectors_written : Nat
deriving DecidableEq

/-- One record sent to `s3v.put_vectors`. -/
structure VectorItem where
  key : String
  data : List ℚ
  source_text : List Char
  user_id : String
  paper_id : String
  chunk_index : Nat
deriving DecidableEq

/-- The handler's observable outcome: its response together with the calls
it made to the embedding capability (one entry per `embed_text` call) and to
the vector store (one entry per `put_vectors` call). -/
structure IndexOutcome where
  response : IndexResponse
  embed_calls : List (List Char)
  put_calls : List (List VectorItem)
deriving DecidableEq

/-- The `vector_items` construction: `enumerate(zip(chunks, embeddings))`
with key `f"{user_id}:{paper_id}:{idx}:{uuid.uuid4()}"`; the fresh UUIDs are
supplied by the oracle `uuidOf`. -/
def mkVectorItemsFrom (user_id paper_id : String) (uuidOf : Nat → String) :
    Nat → List (List Char × List ℚ) → List VectorItem
  | _, [] => []
  | idx, (chunk, embedding) :: rest =>
    { key := user_id ++ ":" ++ paper_id ++ ":" ++ toString idx ++ ":" ++ uuidOf idx
      data := embedding
      source_text := chunk
      user_id := user_id
      paper_id := paper_id
      chunk_index := idx } :: mkVectorItemsFrom user_id paper_id uuidOf (idx + 1) rest

/-- Steps 3–7 of the indexing `lambda_handler` (lines 113–194): chunk the
text, return the no-op response when there are zero chunks, otherwise check
the environment, embed every chunk and write the vectors.  The embedding
capability appears as the oracle `embedOf`. -/
def chunk_embed_handler (VECTOR_BUCKET VECTOR_INDEX : Option String)
    (user_id paper_id : String) (text : List Char)
    (embedOf : List Char → List ℚ) (uuidOf : Nat → String) :
    Except String IndexOutcome :=
  let chunks := chunk_text text 1000
  let num_chunks := chunks.length
  if num_chunks = 0 then
    .ok { response := { statusCode := 200, message := "No text to embed",
                        user_id := user_id, paper_id := paper_id,
                        text_length := text.length, num_chunks := 0,
                        embedding_dim := none, vectors_written := 0 },
          embed_calls := [], put_calls := [] }
  else if pyTruthyStr VECTOR_BUCKET = false ∨ pyTruthyStr VECTOR_INDEX = false then
    .error "Missing VECTOR_BUCKET or VECTOR_INDEX env vars"
  else
    let embeddings := chunks.map embedOf
    let vector_items := mkVectorItemsFrom user_id paper_id uuidOf 0 (chunks.zip embeddings)
    .ok { response := { statusCode := 200,
                        message := "Text loaded, chunked, embedded, and stored successfully",
                        user_id := user_id, paper_id := paper_id,
                        text_length := text.length, num_chunks := num_chunks,
                        embedding_dim := some ((embeddings.headD []).length),
                        vectors_written := vector_items.length },
          embed_calls := chunks, put_calls := [vector_items] }

/-- **C8.** Indexing a document whose text is empty or whitespace-only is a
successful no-op: the chunker yields zero chunks (for any budget), and the
handler returns a 200 response reporting zero chunks and zero vectors
written, without calling the embedding or vector-store capabilities. -/
theorem index_empty_text_noop (bucket idx : Option String) (user_id paper_id : String)
    (text : List Char) (embedOf : List Char → List ℚ) (uuidOf : Nat → String)
    (h : ∀ c ∈ text, isPySpace c = true) :
    (∀ mc : Nat, chunk_text text mc = []) ∧
    chunk_embed_handler bucket idx user_id paper_id text embedOf uuidOf =
      .ok { response := { statusCode := 200, message := "No text to embed",
                          user_id := user_id, paper_id := paper_id,
                          text_length := text.length, num_chunks := 0,
                          embedding_dim := none, vectors_written := 0 },
            embed_calls := [], put_calls := [] } := by
  have hempty : ∀ mc : Nat, chunk_text text mc = [] := by
    intro mc
    rw [chunk_text, pySplit_space_only text h]
    rfl
  exact ⟨hempty, by simp [chunk_embed_handler, hempty 1000]⟩

/-- Closed instance of `index_empty_text_noop` on a whitespace-only text. -/
theorem index_empty_text_noop_witness :
    chunk_text "  \n ".toList 1000 = [] ∧
    chunk_embed_handler (some "b") (some "i") "u" "p" "  \n ".toList
        (fun _ => []) (fun _ => "s") =
      .ok { response := { statusCode := 200, message := "No text to embed",
                          user_id := "u", paper_id := "p",
                          text_length := "  \n ".toList.length, num_chunks := 0,
                          embedding_dim := none, vectors_written := 0 },
            embed_calls := [], put_calls := [] } :=
  ⟨(index_empty_text_noop (some "b") (some "i") "u" "p" "  \n ".toList
      (fun _ => []) (fun _ => "s") (by decide)).1 1000,
   (index_empty_text_noop (some "b") (some "i") "u" "p" "  \n ".toList
      (fun _ => []) (fun _ => "s") (by decide)).2⟩

/-- Closed instance of `build_filter_empty_docs_absent`. -/
theorem build_filter_empty_docs_absent_witness :
    _build_filter (some "u1") (some []) = _build_filter (some "u1") none ∧
    _build_filter none (some []) = none :=
  build_filter_empty_docs_absent (some "u1")

/-- Closed instance of `embed_extract_error_iff` at a concrete payload. -/
theorem embed_extract_error_iff_witness :
    (embed_text_extract ⟨none, some [], none⟩ =
        .error "Unexpected embedding response format" ↔
      (pyTruthyList (none : Option (List ℚ)) = false ∧
       pyTruthyList (some ([] : List ℚ)) = false ∧
       (none : Option (List ℚ)) = none)) ∧
    embed_text_extract ⟨some [], none, none⟩ =
      .error "Unexpected embedding response format" :=
  ⟨embed_extract_error_iff.1 ⟨none, some [], none⟩, embed_extract_error_iff.2⟩
